import Mathlib

/-!
Verification development for the agent-sessions monitoring scripts.

The definitions below are shallow embeddings of the core algorithmic pieces
of `scripts/agent_watch.py` and `scripts/scan_tool_formats.py`:
severity decision logic, schema fingerprinting and diffing, balanced-brace
extraction, and tool-event clustering.  Machine-level concerns (file I/O,
subprocess execution) are represented by explicit data passed to the
functions; the algorithmic content is translated line by line.
-/

namespace AgentWatch


/-- Inputs of `_pick_severity` in `scripts/agent_watch.py`.
`schema_hits` / `usage_hits` are lists of matched keywords, as in the
source; the rules only test their non-emptiness. -/
structure SeverityInputs where
  upstream_newer_than_verified : Bool
  installed_newer_than_verified : Bool
  monitoring_failed : Bool
  schema_hits : List String
  usage_hits : List String
  probe_failed : Bool
  probe_failed_but_upstream_degraded : Bool

/-- Embedding of `_pick_severity` (agent_watch.py lines 167-190):
a chain of `if` statements returning a `(severity, recommendation)` pair. -/

def pickSeverity (i : SeverityInputs) : String × String :=
  if i.monitoring_failed then ("high", "prepare_hotfix")
  else if i.probe_failed && !i.probe_failed_but_upstream_degraded then
    ("high", "prepare_hotfix")
  else if i.probe_failed && i.probe_failed_but_upstream_degraded then
    ("medium", "monitor")
  else if i.installed_newer_than_verified then ("medium", "run_weekly_now")
  else if !i.upstream_newer_than_verified && !i.installed_newer_than_verified then
    ("none", "ignore")
  else if !i.schema_hits.isEmpty || !i.usage_hits.isEmpty then
    ("medium", "run_weekly_now")
  else ("low", "monitor")

/-- The spec-side view of the decision inputs (section 4.4 of the spec):
all signals collapsed to booleans, in particular
`schema_or_usage_keyword_hits`. -/

structure SpecSignals where
  monitoring_failed : Bool
  probe_failed : Bool
  probe_failed_but_upstream_degraded : Bool
  upstream_newer_than_verified : Bool
  installed_newer_than_verified : Bool
  schema_or_usage_keyword_hits : Bool

/-- The ordered rule list of spec section 4.4, written as (guard, result)
pairs; this is the spec's description, kept separate from `pickSeverity`
so the two can be compared. -/

def specRuleList : List ((SpecSignals → Bool) × (String × String)) :=
  [ (fun s => s.monitoring_failed, ("high", "prepare_hotfix")),
    (fun s => s.probe_failed && !s.probe_failed_but_upstream_degraded,
      ("high", "prepare_hotfix")),
    (fun s => s.probe_failed && s.probe_failed_but_upstream_degraded,
      ("medium", "monitor")),
    (fun s => s.installed_newer_than_verified, ("medium", "run_weekly_now")),
    (fun s => !s.upstream_newer_than_verified && !s.installed_newer_than_verified,
      ("none", "ignore")),
    (fun s => s.schema_or_usage_keyword_hits, ("medium", "run_weekly_now")),
    (fun _ => true, ("low", "monitor")) ]

/-- First-match-wins evaluation of an ordered rule list. -/

def firstMatch (s : SpecSignals) :
    List ((SpecSignals → Bool) × (String × String)) → Option (String × String)
  | [] => none
  | (c, r) :: rest => if c s then some r else firstMatch s rest

/-- Collapse the source-level inputs to the spec-level boolean signals. -/

def signalsOf (i : SeverityInputs) : SpecSignals :=
  { monitoring_failed := i.monitoring_failed
    probe_failed := i.probe_failed
    probe_failed_but_upstream_degraded := i.probe_failed_but_upstream_degraded
    upstream_newer_than_verified := i.upstream_newer_than_verified
    installed_newer_than_verified := i.installed_newer_than_verified
    schema_or_usage_keyword_hits := !(i.schema_hits.isEmpty && i.usage_hits.isEmpty) }

/-- Severity rank used to compare decisions: none < low < medium < high. -/

def sevRank (s : String) : Nat :=
  if s == "none" then 0
  else if s == "low" then 1
  else if s == "medium" then 2
  else 3

/-- Embedding of the deep-mode (weekly) post-pass override in `main`
(agent_watch.py lines 992-1000): if the mode is weekly, the pre-override
severity is medium or low, the installed version is newer than verified,
the live schema comparison matched the baseline, and no probe failed,
replace the decision by (low, bump_verified_version). -/

def applyWeeklyOverride (mode : String) (i : SeverityInputs)
    (schema_matches_baseline : Option Bool) (pre : String × String) :
    String × String :=
  if mode == "weekly" && (pre.1 == "medium" || pre.1 == "low")
      && i.installed_newer_than_verified
      && schema_matches_baseline == some true
      && !i.probe_failed then
    ("low", "bump_verified_version")
  else pre

/-- The final decision of a run: `_pick_severity` followed by the
weekly override, as in `main`. -/

def finalDecision (mode : String) (i : SeverityInputs)
    (schema_matches_baseline : Option Bool) : String × String :=
  applyWeeklyOverride mode i schema_matches_baseline (pickSeverity i)

/-- Severity inputs of the C3 scenario: `installed_newer_than_verified` true
and every other signal false / empty. -/
def installedOnlyInputs : SeverityInputs :=
  { upstream_newer_than_verified := false
    installed_newer_than_verified := true
    monitoring_failed := false
    schema_hits := []
    usage_hits := []
    probe_failed := false
    probe_failed_but_upstream_degraded := false }

/-- Severity inputs used to check claim C4: keyword hits together with
`installed_newer_than_verified`, everything else false. -/
def hitsAndInstalledInputs : SeverityInputs :=
  { upstream_newer_than_verified := false
    installed_newer_than_verified := true
    monitoring_failed := false
    schema_hits := ["schema"]
    usage_hits := []
    probe_failed := false
    probe_failed_but_upstream_degraded := false }

/-- A `type_keys` mapping as handled by `_schema_diff`: a Python dict from
logical type to a set of field names.  `types` is the dict's key set and
`keysOf` gives the stored value for each present key. -/
structure TypeKeysMap where
  types : Finset String
  keysOf : String → Finset String

/-- Dict lookup with empty default, mirroring `m.get(t, [])` in
`_schema_diff`. -/

def TypeKeysMap.lookup (m : TypeKeysMap) (t : String) : Finset String :=
  if t ∈ m.types then m.keysOf t else ∅

/-- Result of `_schema_diff` (agent_watch.py lines 603-631).  The
`unknown_keys` / `missing_keys` dicts are modelled by their key sets
(`unknown_keys_dom` / `missing_keys_dom`: the types for which the per-type
difference is non-empty, i.e. exactly the keys stored in the Python dict)
together with the per-type difference functions. -/

structure SchemaDiff where
  unknown_types : Finset String
  missing_types : Finset String
  unknown_keys_dom : Finset String
  unknown_keys : String → Finset String
  missing_keys_dom : Finset String
  missing_keys : String → Finset String
  unknown_only_is_empty : Bool
  is_empty : Bool

/-- Embedding of `_schema_diff`: pure set algebra per type over the union of
the two sides' type sets. -/

def schemaDiff (observed baseline : TypeKeysMap) : SchemaDiff :=
  let unknown_types := observed.types \ baseline.types
  let missing_types := baseline.types \ observed.types
  let allTypes := observed.types ∪ baseline.types
  let extra := fun t => observed.lookup t \ baseline.lookup t
  let miss := fun t => baseline.lookup t \ observed.lookup t
  let unknown_keys_dom := allTypes.filter (fun t => extra t ≠ ∅)
  let missing_keys_dom := allTypes.filter (fun t => miss t ≠ ∅)
  { unknown_types := unknown_types
    missing_types := missing_types
    unknown_keys_dom := unknown_keys_dom
    unknown_keys := extra
    missing_keys_dom := missing_keys_dom
    missing_keys := miss
    unknown_only_is_empty :=
      decide (unknown_types = ∅ ∧ unknown_keys_dom = ∅)
    is_empty :=
      decide (unknown_types = ∅ ∧ missing_types = ∅ ∧
        unknown_keys_dom = ∅ ∧ missing_keys_dom = ∅) }

/-- The drift verdict of a diff.  `_schema_diff` exposes the complement
`unknown_only_is_empty`, which `main` uses as `schema_matches_baseline`;
drift is its negation. -/

def SchemaDiff.drift (d : SchemaDiff) : Bool :=
  !d.unknown_only_is_empty

/-- Baseline fingerprint used to instantiate the C1 scenario: one known type
`message.user` with fields `role` and `content`. -/
def baselineMessageUser : TypeKeysMap :=
  ⟨{"message.user"}, fun _ => {"role", "content"}⟩


/-- A JSON value, as produced by `json.loads`. -/
inductive Json where
  | null : Json
  | bool (b : Bool) : Json
  | num (n : Int) : Json
  | str (s : String) : Json
  | arr (items : List Json) : Json
  | obj (entries : List (String × Json)) : Json

/-- Dict lookup on a JSON object's entries, as `obj.get(k)`. -/

def jsonGet (entries : List (String × Json)) (k : String) : Option Json :=
  (entries.find? (fun p => p.1 == k)).map (·.2)

/-- The key list of a JSON object, as `obj.keys()`. -/

def objKeys (entries : List (String × Json)) : List String :=
  entries.map (·.1)

/-- The logical event type of a JSONL record as computed in
`_jsonl_schema_fingerprint`: the string value of the `type` field when it is
a non-empty string, else the sentinel `<missing-type>`. -/

def eventTypeOf (entries : List (String × Json)) : String :=
  match jsonGet entries "type" with
  | some (Json.str s) => if s ≠ "" then s else "<missing-type>"
  | _ => "<missing-type>"

/-- The fingerprint accumulator of `_jsonl_schema_fingerprint`
(agent_watch.py lines 295-318): per-type key sets and counts, the number of
processed lines and the number of JSON parse errors. -/

structure Fingerprint where
  type_keys : String → Finset String
  type_counts : String → Nat
  parsed_lines : Nat
  parse_errors : Nat

/-- One iteration of the fingerprint loop.  A line is `none` when
`json.loads` raised (counted as a parse error), `some j` when it parsed to
`j`; only dict lines contribute to the per-type maps. -/
def ingestLine (fp : Fingerprint) (line : Option Json) : Fingerprint :=
  match line with
  | none =>
    { fp with parsed_lines := fp.parsed_lines + 1,
              parse_errors := fp.parse_errors + 1 }
  | some (Json.obj entries) =>
    let t := eventTypeOf entries
    { fp with
      parsed_lines := fp.parsed_lines + 1
      type_counts := fun u => if u = t then fp.type_counts u + 1 else fp.type_counts u
      type_keys := fun u =>
        if u = t then fp.type_keys u ∪ (objKeys entries).toFinset
        else fp.type_keys u }
  | some _ => { fp with parsed_lines := fp.parsed_lines + 1 }

/-- The empty fingerprint the loop starts from. -/

def emptyFingerprint : Fingerprint := ⟨fun _ => ∅, fun _ => 0, 0, 0⟩

/-- The fingerprint of a sequence of parsed lines: the fold of
`_jsonl_schema_fingerprint`'s loop. -/

def fingerprintFold (lines : List (Option Json)) : Fingerprint :=
  lines.foldl ingestLine emptyFingerprint

/-- The event type a line contributes to, if any. -/

def lineType : Option Json → Option String
  | some (Json.obj entries) => some (eventTypeOf entries)
  | _ => none

/-- The key set a line contributes. -/

def lineKeys : Option Json → Finset String
  | some (Json.obj entries) => (objKeys entries).toFinset
  | _ => ∅

/-- A sample parsed JSONL record of type `a`. -/
def sampleLineA : Option Json := some (Json.obj [("type", Json.str "a")])

/-- A sample parsed JSONL record of type `b` with one extra field. -/

def sampleLineB : Option Json :=
  some (Json.obj [("type", Json.str "b"), ("payload", Json.null)])


/-- The sibling directory structure next to an OpenCode session file, as
resolved by `_opencode_storage_root_for_session_file`: for a session id,
the parse results of the sorted `msg_*.json` files in
`storage/message/<sessionId>` (or `none` when that directory is absent),
and for a message id the parse results of the sorted part files in
`storage/part/<messageId>` (or `none` when absent).  A file's parse result
is `none` when `json.loads` raised. -/
structure StorageRoot where
  messageDir : String → Option (List (Option Json))
  partDir : String → Option (List (Option Json))

/-- A tree-shaped OpenCode session as seen by
`_opencode_storage_session_tree_schema_fingerprint`: the parse result of the
session file and the storage root found by walking the parents (or `none`
when no parent holds `session`, `message` and `part` directories). -/

structure OpencodeSessionTree where
  sessionContent : Option Json
  storageRoot : Option StorageRoot

/-- The per-type accumulator of the tree fingerprint (`type_keys` and
`type_counts` as updated by the local `_add` helper). -/

structure TKState where
  type_keys : String → Finset String
  type_counts : String → Nat

/-- The `_add(event_type, obj)` helper: count the record and union its keys
into the bucket of its event type. -/

def tkAdd (st : TKState) (event_type : String)
    (entries : List (String × Json)) : TKState :=
  { type_counts := fun u =>
      if u = event_type then st.type_counts u + 1 else st.type_counts u
    type_keys := fun u =>
      if u = event_type then st.type_keys u ∪ (objKeys entries).toFinset
      else st.type_keys u }

/-- Result of `_opencode_storage_session_tree_schema_fingerprint`
(agent_watch.py lines 433-552).  `warning` is `some` exactly when the source
dict carries a `warning` entry. -/

structure TreeFingerprint where
  type_keys : String → Finset String
  type_counts : String → Nat
  message_files_parsed : Nat
  part_files_parsed : Nat
  parse_errors : Nat
  warning : Option String

/-- Mutable state of the message/part scanning loops. -/

structure TreeScanState where
  tk : TKState
  parse_errors : Nat
  message_files_parsed : Nat
  part_files_parsed : Nat
  parts_budget : Nat

/-- The inner part-file loop: stop when the global part budget is exhausted,
count parse errors, bucket dict parts by `part.<type>`. -/

def scanParts : List (Option Json) → TreeScanState → TreeScanState
  | [], st => st
  | pf :: rest, st =>
    if st.parts_budget = 0 then st
    else
      match pf with
      | none =>
        scanParts rest { st with parse_errors := st.parse_errors + 1,
                                 parts_budget := st.parts_budget - 1 }
      | some (Json.obj entries) =>
        let pt :=
          match jsonGet entries "type" with
          | some (Json.str s) => if s ≠ "" then "part." ++ s else "part"
          | _ => "part"
        scanParts rest { st with parts_budget := st.parts_budget - 1,
                                 tk := tkAdd st.tk pt entries,
                                 part_files_parsed := st.part_files_parsed + 1 }
      | some _ => scanParts rest { st with parts_budget := st.parts_budget - 1 }

/-- The message-file loop: count parse errors, bucket dict messages by
`message.<role>`, then follow the message id into the part directory when it
exists and the part budget allows. -/

def scanMessages (root : StorageRoot) :
    List (Option Json) → TreeScanState → TreeScanState
  | [], st => st
  | mf :: rest, st =>
    match mf with
    | none =>
      scanMessages root rest { st with parse_errors := st.parse_errors + 1 }
    | some (Json.obj entries) =>
      let event_type :=
        match jsonGet entries "role" with
        | some (Json.str r) => if r ≠ "" then "message." ++ r else "message"
        | _ => "message"
      let st1 := { st with tk := tkAdd st.tk event_type entries,
                           message_files_parsed := st.message_files_parsed + 1 }
      match jsonGet entries "id" with
      | some (Json.str mid) =>
        if mid ≠ "" then
          match root.partDir mid with
          | some partFiles =>
            if st1.parts_budget = 0 then scanMessages root rest st1
            else scanMessages root rest (scanParts partFiles st1)
          | none => scanMessages root rest st1
        else scanMessages root rest st1
      | _ => scanMessages root rest st1
    | some _ => scanMessages root rest st

/-- Embedding of `_opencode_storage_session_tree_schema_fingerprint`: parse
the session record, derive the session id, resolve the storage root and the
message directory — returning a partial fingerprint with a `warning` when
either is absent — and otherwise scan messages and parts under the caller's
budgets. -/

def opencodeStorageSessionTreeSchemaFingerprint (tree : OpencodeSessionTree)
    (max_messages max_parts : Nat) : TreeFingerprint :=
  match tree.sessionContent with
  | none =>
    { type_keys := fun _ => ∅, type_counts := fun _ => 0,
      message_files_parsed := 0, part_files_parsed := 0,
      parse_errors := 1, warning := none }
  | some sessionObj =>
    let tk0 : TKState := ⟨fun _ => ∅, fun _ => 0⟩
    let tk1 :=
      match sessionObj with
      | Json.obj entries => tkAdd tk0 "session" entries
      | _ => tk0
    let sessionId :=
      match sessionObj with
      | Json.obj entries => jsonGet entries "id"
      | _ => none
    let noId : TreeFingerprint :=
      { type_keys := tk1.type_keys, type_counts := tk1.type_counts,
        message_files_parsed := 0, part_files_parsed := 0,
        parse_errors := 0, warning := none }
    match sessionId with
    | some (Json.str sid) =>
      if sid ≠ "" then
        match tree.storageRoot with
        | none =>
          { type_keys := tk1.type_keys, type_counts := tk1.type_counts,
            message_files_parsed := 0, part_files_parsed := 0,
            parse_errors := 0, warning := some "storage_root_not_found" }
        | some root =>
          match root.messageDir sid with
          | none =>
            { type_keys := tk1.type_keys, type_counts := tk1.type_counts,
              message_files_parsed := 0, part_files_parsed := 0,
              parse_errors := 0, warning := some "message_dir_not_found" }
          | some msgFiles =>
            let st := scanMessages root (msgFiles.take max_messages)
              ⟨tk1, 0, 0, 0, max_parts⟩
            { type_keys := st.tk.type_keys, type_counts := st.tk.type_counts,
              message_files_parsed := st.message_files_parsed,
              part_files_parsed := st.part_files_parsed,
              parse_errors := st.parse_errors, warning := none }
      else noId
    | _ => noId

/-- Session entries used to instantiate C9. -/
def sampleSessionEntries : List (String × Json) :=
  [("id", Json.str "ses_1"), ("version", Json.str "2")]

/-- A concrete tree-shaped session whose storage root is missing. -/

def sampleTreeNoRoot : OpencodeSessionTree :=
  ⟨some (Json.obj sampleSessionEntries), none⟩

end AgentWatch

namespace ScanToolFormats


/-- Embedding of the loop of `extract_balanced_braces`
(scan_tool_formats.py lines 183-206).  Arguments: the remaining characters,
the `in_string`, `escape` and `depth` loop variables, and the characters
consumed so far (in reverse).  Depth is an integer, as in Python, so a close
brace may drive it negative. -/
def extractBalancedAux : List Char → Bool → Bool → Int → List Char →
    Option (List Char)
  | [], _, _, _, _ => none
  | ch :: rest, inString, escape, depth, acc =>
    if inString then
      if escape then extractBalancedAux rest true false depth (ch :: acc)
      else if ch = '\\' then extractBalancedAux rest true true depth (ch :: acc)
      else if ch = '\"' then extractBalancedAux rest false false depth (ch :: acc)
      else extractBalancedAux rest true false depth (ch :: acc)
    else if ch = '\"' then extractBalancedAux rest true escape depth (ch :: acc)
    else if ch = '\x7b' then
      extractBalancedAux rest false escape (depth + 1) (ch :: acc)
    else if ch = '\x7d' then
      if depth - 1 = 0 then some (ch :: acc).reverse
      else extractBalancedAux rest false escape (depth - 1) (ch :: acc)
    else extractBalancedAux rest false escape depth (ch :: acc)

/-- Embedding of `extract_balanced_braces(text, start)`: scan `text` from
index `start`, tracking string-literal and escape state, and return the
substring from `start` through the close brace at depth zero, or `none`. -/

def extractBalancedBraces (text : List Char) (start : Nat) :
    Option (List Char) :=
  extractBalancedAux (text.drop start) false false 0 []

/-- The loop state of the brace scanner. -/

structure ScanState where
  inString : Bool
  escape : Bool
  depth : Int
deriving DecidableEq

/-- One transition of the brace scanner's state machine on a character,
stated independently of the extraction loop so the loop can be proved
against it. -/

def scanStep (s : ScanState) (ch : Char) : ScanState :=
  if s.inString then
    if s.escape then { s with escape := false }
    else if ch = '\\' then { s with escape := true }
    else if ch = '\"' then { s with inString := false }
    else s
  else if ch = '\"' then { s with inString := true }
  else if ch = '\x7b' then { s with depth := s.depth + 1 }
  else if ch = '\x7d' then { s with depth := s.depth - 1 }
  else s

/-- The initial scanner state. -/

def initScan : ScanState := ⟨false, false, 0⟩

/-- The scanner, started in state `s`, closes at index `i` of `cs`: after
consuming the first `i` characters it is outside any string literal, the
character at `i` is a close brace, and that brace brings the depth to
zero. -/

def closesFrom (cs : List Char) (s : ScanState) (i : Nat) : Prop :=
  ∃ h : i < cs.length,
    ((cs.take i).foldl scanStep s).inString = false ∧
    cs.get ⟨i, h⟩ = '\x7d' ∧
    ((cs.take i).foldl scanStep s).depth - 1 = 0

/-- Strip leading and trailing whitespace, as Python `str.strip()`
(restricted to the character predicate of the Lean standard library). -/
def stripSpaces (l : List Char) : List Char :=
  ((l.dropWhile (·.isWhitespace)).reverse.dropWhile (·.isWhitespace)).reverse

/-- Insert an underscore between a lowercase-or-digit character and an
uppercase character, as the camel-case split
`re.sub(r"([a-z0-9])([A-Z])", r"\1_\2", s)` in `normalize_token`. -/

def camelSplit : List Char → List Char
  | [] => []
  | [c] => [c]
  | a :: b :: rest =>
    if (a.isLower || a.isDigit) && b.isUpper then
      a :: '_' :: camelSplit (b :: rest)
    else a :: camelSplit (b :: rest)
  termination_by l => l.length

/-- Replace delimiter characters by underscores, as the chained
`.replace("-", "_").replace(" ", "_").replace(".", "_").replace("/", "_")`. -/

def replaceDelims (c : Char) : Char :=
  if c = '-' || c = ' ' || c = '.' || c = '/' then '_' else c

/-- Collapse runs of underscores to one, as `re.sub(r"_+", "_", s)`. -/

def collapseUnderscores : List Char → List Char
  | [] => []
  | [c] => [c]
  | a :: b :: rest =>
    if a = '_' && b = '_' then collapseUnderscores (b :: rest)
    else a :: collapseUnderscores (b :: rest)
  termination_by l => l.length

/-- Strip leading and trailing underscores, as `.strip("_")`. -/

def stripUnderscores (l : List Char) : List Char :=
  ((l.dropWhile (· = '_')).reverse.dropWhile (· = '_')).reverse

/-- Embedding of `normalize_token` (scan_tool_formats.py lines 91-100):
trim, split camel case, unify delimiters, lower-case, drop other characters,
collapse and strip underscores.  ASCII case mapping stands in for Python's
Unicode-aware `lower()`. -/

def normalizeToken (value : String) : String :=
  let s := stripSpaces value.toList
  if s.isEmpty then ""
  else
    let s1 := camelSplit s
    let s2 := s1.map replaceDelims
    let s3 := s2.map Char.toLower
    let s4 := s3.filter (fun c => c.isLower || c.isDigit || c = '_')
    let s5 := collapseUnderscores s4
    String.mk (stripUnderscores s5)

/-- Embedding of `normalize_tool_name`: empty or missing names normalize to
`unknown`. -/

def normalizeToolName (name : Option String) : String :=
  match name with
  | none => "unknown"
  | some n =>
    if n = "" then "unknown"
    else if normalizeToken n = "" then "unknown" else normalizeToken n

/-- Embedding of `normalize_field_name`: fall back to the trimmed,
lower-cased raw name when the token normalizes away. -/

def normalizeFieldName (name : String) : String :=
  if normalizeToken name = "" then
    String.mk ((stripSpaces name.toList).map Char.toLower)
  else normalizeToken name

open AgentWatch in
/-- One tool fragment handed to `add_tool_block`
(scan_tool_formats.py lines 443-503): the arguments that determine the
grouping key and the per-group statistics.  The example-list bookkeeping of
the source (a bounded, insertion-ordered list) is deliberately outside this
model: the claims below are about group keys and counts. -/
structure ToolEvent where
  agent : String
  tool_name : Option String
  direction : String
  shape_signature : String
  parsed_payload : Option Json
  fields : List String

/-- The grouping key computed by `add_tool_block`:
`(agent, normalize_tool_name(tool_name), shape_signature, direction)`. -/

def eventKey (e : ToolEvent) : String × String × String × String :=
  (e.agent, normalizeToolName e.tool_name, e.shape_signature, e.direction)

/-- The order-independent statistics of one `GroupStats` record:
occurrence count, parse successes, raw tool-name variants and normalized
fields seen. -/

structure GroupStats where
  count : Nat
  parse_success : Nat
  tool_name_variants : Finset String
  fields_seen : Finset String

/-- The normalized field-name set contributed by one event, as
`record_fields`: empty names are skipped, the rest are normalized. -/
def eventFieldsFinset (fields : List String) : Finset String :=
  ((fields.filter (fun f => f ≠ "")).map normalizeFieldName).toFinset

/-- The zero-valued group a fresh key starts from. -/

def defaultGroupStats : GroupStats := ⟨0, 0, ∅, ∅⟩

/-- The per-event update of `add_tool_block` on an existing group: increment
the count, count parse successes, record the raw tool name when truthy, and
accumulate normalized field names. -/

def bumpGroup (g : GroupStats) (e : ToolEvent) : GroupStats :=
  { count := g.count + 1
    parse_success := g.parse_success + (if e.parsed_payload.isSome then 1 else 0)
    tool_name_variants :=
      match e.tool_name with
      | some n => if n ≠ "" then insert n g.tool_name_variants else g.tool_name_variants
      | none => g.tool_name_variants
    fields_seen := g.fields_seen ∪ eventFieldsFinset e.fields }

/-- The `groups` dict of the scan, keyed by the grouping tuple. -/

abbrev GroupsMap := (String × String × String × String) → Option GroupStats

/-- Embedding of `add_tool_block` restricted to the group map: create the
group of the event's key if missing, then apply the per-event update. -/

def addToolBlock (groups : GroupsMap) (e : ToolEvent) : GroupsMap :=
  fun k =>
    if k = eventKey e then
      some (bumpGroup ((groups (eventKey e)).getD defaultGroupStats) e)
    else groups k

/-- Clustering a sequence of tool events, as the scan loop: fold
`add_tool_block` over them starting from an empty dict. -/

def clusterEvents (es : List ToolEvent) : GroupsMap :=
  es.foldl addToolBlock (fun _ => none)

end ScanToolFormats

namespace AgentWatch


/-- C2: the severity decision function is total and deterministic and agrees
with the ordered first-match-wins rule list 1-7 of spec section 4.4: for every
combination of inputs, first-match evaluation of the spec rules succeeds
(totality: `some`, and as a function it is deterministic) and returns exactly
`pickSeverity`; moreover `monitoring_failed = true` yields
(high, prepare_hotfix) regardless of all other inputs. -/
theorem pickSeverity_matches_spec_rules :
    (∀ (i : SeverityInputs),
        firstMatch (signalsOf i) specRuleList = some (pickSeverity i)) ∧
    (∀ (un inn pf pfd : Bool) (sh uh : List String),
        pickSeverity ⟨un, inn, true, sh, uh, pf, pfd⟩ =
          ("high", "prepare_hotfix")) := by
  constructor
  · intro i
    obtain ⟨un, inn, mf, sh, uh, pf, pfd⟩ := i
    cases mf <;> cases pf <;> cases pfd <;> cases un <;> cases inn <;>
      cases sh <;> cases uh <;>
      simp [pickSeverity, firstMatch, specRuleList, signalsOf]
  · intro un inn pf pfd sh uh
    simp [pickSeverity]

/-- C3: in weekly (deep) mode, with `installed_newer_than_verified` true, all
other signals false and the live schema comparison showing no drift
(`schema_matches_baseline = some true`), the final decision is
(low, bump_verified_version) while the pre-override decision is
(medium, run_weekly_now); and in general the override only relaxes a
decision — the final severity rank never exceeds the pre-override rank. -/
theorem weeklyOverride_downgrades_installed_newer :
    (finalDecision "weekly" installedOnlyInputs (some true) =
        ("low", "bump_verified_version") ∧
      pickSeverity installedOnlyInputs = ("medium", "run_weekly_now")) ∧
    (∀ (mode : String) (i : SeverityInputs) (smb : Option Bool),
        sevRank (finalDecision mode i smb).1 ≤ sevRank (pickSeverity i).1) := by
  refine ⟨⟨by decide, by decide⟩, ?_⟩
  intro mode i smb
  unfold finalDecision applyWeeklyOverride
  split
  · next h =>
    simp only [Bool.and_eq_true, Bool.or_eq_true, beq_iff_eq] at h
    rcases h with ⟨⟨⟨⟨-, h2⟩, -⟩, -⟩, -⟩
    rcases h2 with h2 | h2 <;> simp [h2, sevRank]
  · exact le_refl _

/-- C4 counterexample: with `schema_or_usage_keyword_hits` true (a schema
keyword hit) together with `installed_newer_than_verified`, weekly mode and a
drift-free live schema comparison, the code's final decision is
(low, bump_verified_version): the keyword hit does NOT block the override,
contradicting the claim that the decision stays (medium, run_weekly_now). -/
theorem keywordHits_do_not_block_override_counterexample :
    finalDecision "weekly" hitsAndInstalledInputs (some true) =
        ("low", "bump_verified_version") ∧
      finalDecision "weekly" hitsAndInstalledInputs (some true) ≠
        ("medium", "run_weekly_now") := by
  exact ⟨by decide, by decide⟩

/-- C4 amended: the override in `main` tests only the mode, the pre-override
severity, `installed_newer_than_verified`, the schema-match evidence and
`probe_failed`; keyword hits are not consulted.  For any keyword hit lists,
with `installed_newer_than_verified` true, no probe failure, weekly mode and
a drift-free comparison, the final decision is (low, bump_verified_version). -/

theorem keywordHits_do_not_block_override (sh uh : List String) :
    finalDecision "weekly"
        { upstream_newer_than_verified := false
          installed_newer_than_verified := true
          monitoring_failed := false
          schema_hits := sh
          usage_hits := uh
          probe_failed := false
          probe_failed_but_upstream_degraded := false } (some true) =
      ("low", "bump_verified_version") := by
  rfl

/-- C1: for every observed and baseline fingerprint the drift verdict is true
iff `unknown_types` or the `unknown_keys` dict is non-empty; adding one new
field `k` to a type `t` known to the baseline makes drift true and puts `k`
in `unknown_keys` at `t`; removing a known field only populates
`missing_keys` and never makes drift true. -/
theorem schemaDiff_drift_iff_unknown (O B : TypeKeysMap) (t k : String) :
    ((schemaDiff O B).drift = true ↔
      (schemaDiff O B).unknown_types ≠ ∅ ∨ (schemaDiff O B).unknown_keys_dom ≠ ∅) ∧
    (t ∈ B.types → k ∉ B.lookup t →
      (schemaDiff ⟨B.types, fun u => if u = t then insert k (B.keysOf u) else B.keysOf u⟩
          B).drift = true ∧
      k ∈ (schemaDiff ⟨B.types, fun u => if u = t then insert k (B.keysOf u) else B.keysOf u⟩
          B).unknown_keys t ∧
      t ∈ (schemaDiff ⟨B.types, fun u => if u = t then insert k (B.keysOf u) else B.keysOf u⟩
          B).unknown_keys_dom) ∧
    (t ∈ B.types → k ∈ B.lookup t →
      (schemaDiff ⟨B.types, fun u => if u = t then (B.keysOf u).erase k else B.keysOf u⟩
          B).drift = false ∧
      k ∈ (schemaDiff ⟨B.types, fun u => if u = t then (B.keysOf u).erase k else B.keysOf u⟩
          B).missing_keys t ∧
      t ∈ (schemaDiff ⟨B.types, fun u => if u = t then (B.keysOf u).erase k else B.keysOf u⟩
          B).missing_keys_dom ∧
      (schemaDiff ⟨B.types, fun u => if u = t then (B.keysOf u).erase k else B.keysOf u⟩
          B).unknown_keys_dom = ∅) := by
  have hiff : ∀ O' B' : TypeKeysMap, (schemaDiff O' B').drift = true ↔
      (schemaDiff O' B').unknown_types ≠ ∅ ∨
        (schemaDiff O' B').unknown_keys_dom ≠ ∅ := by
    intro O' B'
    show (!decide _) = true ↔ _
    rw [Bool.not_eq_true', decide_eq_false_iff_not, not_and_or]
    exact Iff.rfl
  refine ⟨hiff O B, ?_, ?_⟩
  · intro ht hk
    have hkk : k ∉ B.keysOf t := by
      simpa [TypeKeysMap.lookup, ht] using hk
    have hextra : k ∈ (schemaDiff
        ⟨B.types, fun u => if u = t then insert k (B.keysOf u) else B.keysOf u⟩
        B).unknown_keys t := by
      show k ∈ TypeKeysMap.lookup _ t \ B.lookup t
      simp [TypeKeysMap.lookup, ht, hkk]
    have hdom : t ∈ (schemaDiff
        ⟨B.types, fun u => if u = t then insert k (B.keysOf u) else B.keysOf u⟩
        B).unknown_keys_dom := by
      refine Finset.mem_filter.2 ⟨by simp [ht], ?_⟩
      exact Finset.ne_empty_of_mem hextra
    refine ⟨?_, hextra, hdom⟩
    exact (hiff _ B).2 (Or.inr (Finset.ne_empty_of_mem hdom))
  · intro ht hk
    have hkk : k ∈ B.keysOf t := by
      simpa [TypeKeysMap.lookup, ht] using hk
    have hsub : ∀ u, TypeKeysMap.lookup
        ⟨B.types, fun v => if v = t then (B.keysOf v).erase k else B.keysOf v⟩ u ⊆
        B.lookup u := by
      intro u
      unfold TypeKeysMap.lookup
      by_cases hmem : u ∈ B.types
      · simp only [hmem, if_true]
        by_cases hu : u = t
        · subst hu
          simp [Finset.erase_subset]
        · simp [hu]
      · simp [hmem]
    have hextra : ∀ u, TypeKeysMap.lookup
        ⟨B.types, fun v => if v = t then (B.keysOf v).erase k else B.keysOf v⟩ u \
        B.lookup u = ∅ :=
      fun u => Finset.sdiff_eq_empty_iff_subset.2 (hsub u)
    have hdomempty : (schemaDiff
        ⟨B.types, fun u => if u = t then (B.keysOf u).erase k else B.keysOf u⟩
        B).unknown_keys_dom = ∅ := by
      refine Finset.filter_eq_empty_iff.2 ?_
      intro u _
      show ¬¬(TypeKeysMap.lookup _ u \ B.lookup u = ∅)
      exact not_not_intro (hextra u)
    have hmiss : k ∈ (schemaDiff
        ⟨B.types, fun u => if u = t then (B.keysOf u).erase k else B.keysOf u⟩
        B).missing_keys t := by
      show k ∈ B.lookup t \ TypeKeysMap.lookup _ t
      simp [TypeKeysMap.lookup, ht, hkk]
    refine ⟨?_, hmiss, ?_, hdomempty⟩
    · rw [Bool.eq_false_iff]
      intro hdrift
      rcases (hiff _ B).1 hdrift with hne | hne
      · exact hne (Finset.sdiff_self B.types)
      · exact hne hdomempty
    · refine Finset.mem_filter.2 ⟨by simp [ht], ?_⟩
      exact Finset.ne_empty_of_mem hmiss

/-- C8: the diff is symmetric in structure but not in verdict:
`unknown_types` of `diff(A,B)` equals `missing_types` of `diff(B,A)`, the
unknown-keys dict of `diff(A,B)` equals the missing-keys dict of `diff(B,A)`
(same key set and same per-type sets), and symmetrically. -/

theorem schemaDiff_structural_symmetry (A B : TypeKeysMap) :
    (schemaDiff A B).unknown_types = (schemaDiff B A).missing_types ∧
    (schemaDiff A B).missing_types = (schemaDiff B A).unknown_types ∧
    (schemaDiff A B).unknown_keys_dom = (schemaDiff B A).missing_keys_dom ∧
    (schemaDiff A B).missing_keys_dom = (schemaDiff B A).unknown_keys_dom ∧
    (∀ t, (schemaDiff A B).unknown_keys t = (schemaDiff B A).missing_keys t) ∧
    (∀ t, (schemaDiff A B).missing_keys t = (schemaDiff B A).unknown_keys t) := by
  refine ⟨rfl, rfl, ?_, ?_, fun _ => rfl, fun _ => rfl⟩ <;>
    simp [schemaDiff, Finset.union_comm]

/-- Witness for C1: the add-field scenario evaluated on the concrete baseline
of spec section 8 (adding `attachments` to `message.user`). -/
theorem schemaDiff_drift_iff_unknown_witness :
    "message.user" ∈ baselineMessageUser.types ∧
    "attachments" ∉ baselineMessageUser.lookup "message.user" ∧
    ((schemaDiff
        ⟨baselineMessageUser.types,
          fun u => if u = "message.user" then
            insert "attachments" (baselineMessageUser.keysOf u)
          else baselineMessageUser.keysOf u⟩
        baselineMessageUser).drift = true ∧
      "attachments" ∈ (schemaDiff
        ⟨baselineMessageUser.types,
          fun u => if u = "message.user" then
            insert "attachments" (baselineMessageUser.keysOf u)
          else baselineMessageUser.keysOf u⟩
        baselineMessageUser).unknown_keys "message.user" ∧
      "message.user" ∈ (schemaDiff
        ⟨baselineMessageUser.types,
          fun u => if u = "message.user" then
            insert "attachments" (baselineMessageUser.keysOf u)
          else baselineMessageUser.keysOf u⟩
        baselineMessageUser).unknown_keys_dom) :=
  ⟨by decide, by decide,
    (schemaDiff_drift_iff_unknown baselineMessageUser baselineMessageUser
      "message.user" "attachments").2.1 (by decide) (by decide)⟩

theorem fingerprint_eq_of_fields {a b : Fingerprint}
    (h1 : a.type_keys = b.type_keys) (h2 : a.type_counts = b.type_counts)
    (h3 : a.parsed_lines = b.parsed_lines)
    (h4 : a.parse_errors = b.parse_errors) : a = b := by
  cases a; cases b; cases h1; cases h2; cases h3; cases h4; rfl

theorem foldl_ingest_parsed_lines (l : List (Option Json)) (fp : Fingerprint) :
    (l.foldl ingestLine fp).parsed_lines = fp.parsed_lines + l.length := by
  induction l generalizing fp with
  | nil => simp
  | cons line rest ih =>
    have hstep : (ingestLine fp line).parsed_lines = fp.parsed_lines + 1 := by
      cases line with
      | none => rfl
      | some j => cases j <;> rfl
    simp only [List.foldl_cons, ih, hstep, List.length_cons]
    omega

theorem foldl_ingest_parse_errors (l : List (Option Json)) (fp : Fingerprint) :
    (l.foldl ingestLine fp).parse_errors =
      fp.parse_errors + l.countP (·.isNone) := by
  induction l generalizing fp with
  | nil => simp
  | cons line rest ih =>
    cases line with
    | none =>
      have hstep : (ingestLine fp none).parse_errors = fp.parse_errors + 1 := rfl
      simp only [List.foldl_cons, ih, hstep, List.countP_cons, Option.isNone,
        if_true, if_pos]
      omega
    | some j =>
      have hstep : (ingestLine fp (some j)).parse_errors = fp.parse_errors := by
        cases j <;> rfl
      simp [List.foldl_cons, ih, hstep, List.countP_cons, Option.isNone]

theorem foldl_ingest_type_counts (l : List (Option Json)) (fp : Fingerprint)
    (u : String) :
    (l.foldl ingestLine fp).type_counts u =
      fp.type_counts u + l.countP (fun line => lineType line == some u) := by
  induction l generalizing fp with
  | nil => simp
  | cons line rest ih =>
    cases line with
    | none => simp [List.foldl_cons, ih, List.countP_cons, lineType, ingestLine]
    | some j =>
      cases j with
      | obj entries =>
        by_cases hu : u = eventTypeOf entries
        · subst hu
          simp only [List.foldl_cons, ih, List.countP_cons, lineType,
            ingestLine, if_pos rfl, beq_self_eq_true, if_true]
          omega
        · have : ¬(lineType (some (Json.obj entries)) == some u) = true := by
            simp [lineType]
            exact fun h => hu h.symm
          simp [List.foldl_cons, ih, List.countP_cons, this, ingestLine, hu]
      | null => simp [List.foldl_cons, ih, List.countP_cons, lineType, ingestLine]
      | bool b => simp [List.foldl_cons, ih, List.countP_cons, lineType, ingestLine]
      | num n => simp [List.foldl_cons, ih, List.countP_cons, lineType, ingestLine]
      | str s => simp [List.foldl_cons, ih, List.countP_cons, lineType, ingestLine]
      | arr items => simp [List.foldl_cons, ih, List.countP_cons, lineType, ingestLine]

theorem foldl_ingest_type_keys_mem (l : List (Option Json)) (fp : Fingerprint)
    (u : String) (x : String) :
    x ∈ (l.foldl ingestLine fp).type_keys u ↔
      x ∈ fp.type_keys u ∨
        ∃ line ∈ l, lineType line = some u ∧ x ∈ lineKeys line := by
  induction l generalizing fp with
  | nil => simp
  | cons line rest ih =>
    have hstep : x ∈ (ingestLine fp line).type_keys u ↔
        x ∈ fp.type_keys u ∨ (lineType line = some u ∧ x ∈ lineKeys line) := by
      cases line with
      | none => simp [ingestLine, lineType]
      | some j =>
        cases j with
        | obj entries =>
          by_cases hu : u = eventTypeOf entries
          · subst hu
            simp [ingestLine, lineType, lineKeys]
          · have hne : ¬(eventTypeOf entries = u) := fun h => hu h.symm
            simp [ingestLine, lineType, lineKeys, hu, hne]
        | null => simp [ingestLine, lineType]
        | bool b => simp [ingestLine, lineType]
        | num n => simp [ingestLine, lineType]
        | str s => simp [ingestLine, lineType]
        | arr items => simp [ingestLine, lineType]
    rw [List.foldl_cons, ih, hstep]
    constructor
    · rintro (⟨hx | ⟨ht, hk⟩⟩ | ⟨line', hline', ht, hk⟩)
      · exact Or.inl hx
      · exact Or.inr ⟨line, List.mem_cons_self _ _, ht, hk⟩
      · exact Or.inr ⟨line', List.mem_cons_of_mem _ hline', ht, hk⟩
    · rintro (hx | ⟨line', hline', ht, hk⟩)
      · exact Or.inl (Or.inl hx)
      · rcases List.mem_cons.1 hline' with rfl | hline'
        · exact Or.inl (Or.inr ⟨ht, hk⟩)
        · exact Or.inr ⟨line', hline', ht, hk⟩

/-- C7 counterexample: re-ingesting the same record is NOT idempotent for the
full fingerprint — the count of its type grows from 1 to 2 — even though the
`type_keys` map is unchanged; so the fingerprints after one and two
ingestions differ. -/
theorem fingerprintFold_not_idempotent_counterexample :
    (fingerprintFold [sampleLineA, sampleLineA]).type_counts "a" = 2 ∧
    (fingerprintFold [sampleLineA]).type_counts "a" = 1 ∧
    (fingerprintFold [sampleLineA, sampleLineA]).type_keys "a" =
      (fingerprintFold [sampleLineA]).type_keys "a" ∧
    fingerprintFold [sampleLineA, sampleLineA] ≠ fingerprintFold [sampleLineA] := by
  refine ⟨by decide, by decide, by decide, fun h => ?_⟩
  have h2 := congrArg (fun fp => fp.type_counts "a") h
  exact absurd h2 (by decide)

/-- C7 amended: the fingerprint fold is commutative — any permutation of the
record sequence yields the same fingerprint — and re-ingesting a record that
was already ingested leaves the `type_keys` map unchanged (set union is
idempotent), while the count of that record's type increases by one. -/

theorem fingerprintFold_perm_typeKeys_idem :
    (∀ l l' : List (Option Json), l.Perm l' →
      fingerprintFold l = fingerprintFold l') ∧
    (∀ (l : List (Option Json)) (r : Option Json), r ∈ l →
      (fingerprintFold (l ++ [r])).type_keys = (fingerprintFold l).type_keys ∧
      ∀ u, (fingerprintFold (l ++ [r])).type_counts u =
        (fingerprintFold l).type_counts u +
          (if lineType r = some u then 1 else 0)) := by
  constructor
  · intro l l' h
    unfold fingerprintFold
    refine fingerprint_eq_of_fields ?_ ?_ ?_ ?_
    · funext u
      ext x
      rw [foldl_ingest_type_keys_mem, foldl_ingest_type_keys_mem]
      constructor
      · rintro (hx | ⟨line, hline, ht, hk⟩)
        · exact Or.inl hx
        · exact Or.inr ⟨line, h.subset hline, ht, hk⟩
      · rintro (hx | ⟨line, hline, ht, hk⟩)
        · exact Or.inl hx
        · exact Or.inr ⟨line, h.symm.subset hline, ht, hk⟩
    · funext u
      rw [foldl_ingest_type_counts, foldl_ingest_type_counts, h.countP_eq]
    · rw [foldl_ingest_parsed_lines, foldl_ingest_parsed_lines, h.length_eq]
    · rw [foldl_ingest_parse_errors, foldl_ingest_parse_errors, h.countP_eq]
  · intro l r hr
    unfold fingerprintFold
    constructor
    · funext u
      ext x
      rw [foldl_ingest_type_keys_mem, foldl_ingest_type_keys_mem]
      constructor
      · rintro (hx | ⟨line, hline, ht, hk⟩)
        · exact Or.inl hx
        · rcases List.mem_append.1 hline with hline | hline
          · exact Or.inr ⟨line, hline, ht, hk⟩
          · rcases List.mem_singleton.1 hline with rfl
            exact Or.inr ⟨line, hr, ht, hk⟩
      · rintro (hx | ⟨line, hline, ht, hk⟩)
        · exact Or.inl hx
        · exact Or.inr ⟨line, List.mem_append.2 (Or.inl hline), ht, hk⟩
    · intro u
      rw [foldl_ingest_type_counts, foldl_ingest_type_counts,
        List.countP_append]
      have hone : List.countP (fun line => lineType line == some u) [r] =
          (if lineType r = some u then 1 else 0) := by
        by_cases ht : lineType r = some u
        · simp [List.countP_cons, ht]
        · simp [List.countP_cons, ht]
      rw [hone]
      omega

/-- Witness for C7 amended: swapping two concrete records yields the same
fingerprint, and re-ingesting a concrete record leaves `type_keys`
unchanged. -/

theorem fingerprintFold_perm_typeKeys_idem_witness :
    fingerprintFold [sampleLineA, sampleLineB] =
      fingerprintFold [sampleLineB, sampleLineA] ∧
    ((fingerprintFold ([sampleLineA] ++ [sampleLineA])).type_keys =
        (fingerprintFold [sampleLineA]).type_keys ∧
      ∀ u, (fingerprintFold ([sampleLineA] ++ [sampleLineA])).type_counts u =
        (fingerprintFold [sampleLineA]).type_counts u +
          (if lineType sampleLineA = some u then 1 else 0)) :=
  ⟨fingerprintFold_perm_typeKeys_idem.1 _ _
      (List.Perm.swap sampleLineB sampleLineA []),
    fingerprintFold_perm_typeKeys_idem.2 [sampleLineA] sampleLineA
      (List.mem_singleton.2 rfl)⟩

/-- C9: for every tree-shaped session whose expected sibling directory is
absent — either no storage root is found next to the session file, or the
per-session message directory is missing — extraction returns a partial
fingerprint: it carries a `warning` field, still holds the type keys
gathered so far (the session record's keys under the `session` bucket), and
records no error. -/
theorem opencodeTree_missing_sibling_warning (tree : OpencodeSessionTree)
    (entries : List (String × Json)) (sid : String) (maxM maxP : Nat)
    (hsc : tree.sessionContent = some (Json.obj entries))
    (hid : jsonGet entries "id" = some (Json.str sid))
    (hsid : sid ≠ "") :
    (tree.storageRoot = none →
      (opencodeStorageSessionTreeSchemaFingerprint tree maxM maxP).warning =
          some "storage_root_not_found" ∧
        (opencodeStorageSessionTreeSchemaFingerprint tree maxM maxP).type_keys
            "session" = (objKeys entries).toFinset ∧
        (opencodeStorageSessionTreeSchemaFingerprint tree maxM maxP).parse_errors
          = 0) ∧
    (∀ root, tree.storageRoot = some root → root.messageDir sid = none →
      (opencodeStorageSessionTreeSchemaFingerprint tree maxM maxP).warning =
          some "message_dir_not_found" ∧
        (opencodeStorageSessionTreeSchemaFingerprint tree maxM maxP).type_keys
            "session" = (objKeys entries).toFinset ∧
        (opencodeStorageSessionTreeSchemaFingerprint tree maxM maxP).parse_errors
          = 0) := by
  constructor
  · intro hroot
    simp [opencodeStorageSessionTreeSchemaFingerprint, hsc, hid, hsid, hroot,
      tkAdd]
  · intro root hroot hdir
    simp [opencodeStorageSessionTreeSchemaFingerprint, hsc, hid, hsid, hroot,
      hdir, tkAdd]

/-- Witness for C9: the concrete session with a missing storage root yields
the `storage_root_not_found` warning, the session keys, and no error. -/
theorem opencodeTree_missing_sibling_warning_witness :
    (opencodeStorageSessionTreeSchemaFingerprint sampleTreeNoRoot 250 2500).warning
        = some "storage_root_not_found" ∧
      (opencodeStorageSessionTreeSchemaFingerprint sampleTreeNoRoot 250
          2500).type_keys "session" = (objKeys sampleSessionEntries).toFinset ∧
      (opencodeStorageSessionTreeSchemaFingerprint sampleTreeNoRoot 250
          2500).parse_errors = 0 :=
  (opencodeTree_missing_sibling_warning sampleTreeNoRoot sampleSessionEntries
      "ses_1" 250 2500 rfl rfl (by decide)).1 rfl

end AgentWatch

namespace ScanToolFormats

theorem closesFrom_cons_zero (c : Char) (rest : List Char) (s : ScanState) :
    closesFrom (c :: rest) s 0 ↔
      (s.inString = false ∧ c = '\x7d' ∧ s.depth - 1 = 0) := by
  simp [closesFrom]

theorem closesFrom_cons_succ (c : Char) (rest : List Char) (s : ScanState)
    (i : Nat) :
    closesFrom (c :: rest) s (i + 1) ↔ closesFrom rest (scanStep s c) i := by
  unfold closesFrom
  constructor
  · rintro ⟨h, h1, h2, h3⟩
    exact ⟨Nat.lt_of_succ_lt_succ h, h1, h2, h3⟩
  · rintro ⟨h, h1, h2, h3⟩
    exact ⟨Nat.succ_lt_succ h, h1, h2, h3⟩

theorem extractBalancedAux_step (c : Char) (rest : List Char) (s : ScanState)
    (acc : List Char) :
    extractBalancedAux (c :: rest) s.inString s.escape s.depth acc =
      (if s.inString = false ∧ c = '\x7d' ∧ s.depth - 1 = 0 then
        some (c :: acc).reverse
      else
        extractBalancedAux rest (scanStep s c).inString (scanStep s c).escape
          (scanStep s c).depth (c :: acc)) := by
  obtain ⟨inS, esc, d⟩ := s
  cases inS with
  | true =>
    cases esc with
    | true => simp [extractBalancedAux, scanStep]
    | false =>
      by_cases hb : c = '\\'
      · simp [extractBalancedAux, scanStep, hb]
      · by_cases hq : c = '\"'
        · simp [extractBalancedAux, scanStep, hb, hq]
        · simp [extractBalancedAux, scanStep, hb, hq]
  | false =>
    by_cases hq : c = '\"'
    · have hne : c ≠ '\x7d' := by rw [hq]; decide
      simp [extractBalancedAux, scanStep, hq, hne]
    · by_cases ho : c = '\x7b'
      · have hne : c ≠ '\x7d' := by rw [ho]; decide
        simp [extractBalancedAux, scanStep, hq, ho, hne]
      · by_cases hc : c = '\x7d'
        · by_cases hd : d - 1 = 0
          · simp [extractBalancedAux, scanStep, hq, ho, hc, hd]
          · simp [extractBalancedAux, scanStep, hq, ho, hc, hd]
        · simp [extractBalancedAux, scanStep, hq, ho, hc]

theorem extractBalancedAux_none_iff (cs : List Char) :
    ∀ (s : ScanState) (acc : List Char),
      extractBalancedAux cs s.inString s.escape s.depth acc = none ↔
        ∀ i, ¬ closesFrom cs s i := by
  induction cs with
  | nil =>
    intro s acc
    constructor
    · intro _ i hc
      rcases hc with ⟨h, -⟩
      exact absurd h (by simp)
    · intro _
      rfl
  | cons c rest ih =>
    intro s acc
    rw [extractBalancedAux_step]
    by_cases h : s.inString = false ∧ c = '\x7d' ∧ s.depth - 1 = 0
    · rw [if_pos h]
      constructor
      · intro habs
        exact absurd habs (by simp)
      · intro hall
        exact absurd ((closesFrom_cons_zero c rest s).2 h) (hall 0)
    · rw [if_neg h]
      rw [ih (scanStep s c) (c :: acc)]
      constructor
      · intro hall i hc
        match i with
        | 0 => exact h ((closesFrom_cons_zero c rest s).1 hc)
        | i + 1 => exact hall i ((closesFrom_cons_succ c rest s i).1 hc)
      · intro hall i hc
        exact hall (i + 1) ((closesFrom_cons_succ c rest s i).2 hc)

theorem extractBalancedAux_some (cs : List Char) :
    ∀ (s : ScanState) (acc r : List Char),
      extractBalancedAux cs s.inString s.escape s.depth acc = some r →
        ∃ i, closesFrom cs s i ∧ (∀ j < i, ¬ closesFrom cs s j) ∧
          r = acc.reverse ++ cs.take (i + 1) := by
  induction cs with
  | nil =>
    intro s acc r habs
    exact absurd habs (by simp [extractBalancedAux])
  | cons c rest ih =>
    intro s acc r hr
    rw [extractBalancedAux_step] at hr
    by_cases h : s.inString = false ∧ c = '\x7d' ∧ s.depth - 1 = 0
    · rw [if_pos h] at hr
      refine ⟨0, (closesFrom_cons_zero c rest s).2 h, by omega, ?_⟩
      have : r = (c :: acc).reverse := (Option.some_inj.1 hr).symm
      simp [this, List.reverse_cons]
    · rw [if_neg h] at hr
      obtain ⟨i, hc, hmin, hr'⟩ := ih (scanStep s c) (c :: acc) r hr
      refine ⟨i + 1, (closesFrom_cons_succ c rest s i).2 hc, ?_, ?_⟩
      · intro j hj
        match j with
        | 0 => exact fun hcj => h ((closesFrom_cons_zero c rest s).1 hcj)
        | j + 1 =>
          exact fun hcj => hmin j (Nat.lt_of_succ_lt_succ hj)
            ((closesFrom_cons_succ c rest s j).1 hcj)
      · rw [hr']
        simp [List.reverse_cons]

/-- C10: balanced-brace extraction is total (it is a function into `Option`):
it returns `none` exactly when no position exists at which the scanner — with
string-literal and backslash-escape tracking — sees a close brace at depth
zero, never a truncated substring; and when it returns a string, that string
is exactly the slice of `text` from `start` through the first matching close
brace. -/

theorem extractBalancedBraces_characterization (text : List Char)
    (start : Nat) :
    (extractBalancedBraces text start = none ↔
      ∀ i, ¬ closesFrom (text.drop start) initScan i) ∧
    (∀ r, extractBalancedBraces text start = some r →
      ∃ i, closesFrom (text.drop start) initScan i ∧
        (∀ j < i, ¬ closesFrom (text.drop start) initScan j) ∧
        r = (text.drop start).take (i + 1)) := by
  constructor
  · exact extractBalancedAux_none_iff (text.drop start) initScan []
  · intro r hr
    have := extractBalancedAux_some (text.drop start) initScan [] r hr
    simpa using this

/-- Witness for C10: on the concrete text `x{"}"}` starting at index 1, the
extraction returns the full object slice `{"}"}` — the close brace inside the
quoted string is skipped — and the characterization applies to it. -/

theorem extractBalancedBraces_characterization_witness :
    extractBalancedBraces "x\x7b\"\x7d\"\x7d".toList 1 =
        some "\x7b\"\x7d\"\x7d".toList ∧
      ∃ i, closesFrom ("x\x7b\"\x7d\"\x7d".toList.drop 1) initScan i ∧
        (∀ j < i, ¬ closesFrom ("x\x7b\"\x7d\"\x7d".toList.drop 1) initScan j) ∧
        "\x7b\"\x7d\"\x7d".toList =
          ("x\x7b\"\x7d\"\x7d".toList.drop 1).take (i + 1) :=
  ⟨by decide,
    (extractBalancedBraces_characterization "x\x7b\"\x7d\"\x7d".toList 1).2
      "\x7b\"\x7d\"\x7d".toList (by decide)⟩

/-- C5: balanced-brace extraction applied to
`tool_name {"a": "b{c}", "d": 1}` starting at the first open brace
(index 10) returns the complete object string, including the close brace
inside the quoted value `b{c}`, not a substring truncated at that first
literal close brace. -/

theorem extractBalancedBraces_nested_brace_example :
    extractBalancedBraces
        "tool_name \x7b\"a\": \"b\x7bc\x7d\", \"d\": 1\x7d".toList 10 =
      some "\x7b\"a\": \"b\x7bc\x7d\", \"d\": 1\x7d".toList := by
  decide

theorem groupStats_eq_of_fields {a b : GroupStats}
    (h1 : a.count = b.count) (h2 : a.parse_success = b.parse_success)
    (h3 : a.tool_name_variants = b.tool_name_variants)
    (h4 : a.fields_seen = b.fields_seen) : a = b := by
  cases a; cases b; cases h1; cases h2; cases h3; cases h4; rfl

theorem foldl_addToolBlock (es : List ToolEvent) :
    ∀ (g : GroupsMap) (k : String × String × String × String),
      (es.foldl addToolBlock g) k =
        (es.filter (fun e => eventKey e == k)).foldl
          (fun c e => some (bumpGroup (c.getD defaultGroupStats) e)) (g k) := by
  induction es with
  | nil => intro g k; rfl
  | cons e rest ih =>
    intro g k
    rw [List.foldl_cons, ih]
    by_cases hk : eventKey e = k
    · subst hk
      have h1 : addToolBlock g e (eventKey e) =
          some (bumpGroup ((g (eventKey e)).getD defaultGroupStats) e) := by
        simp [addToolBlock]
      rw [h1]
      simp only [List.filter_cons, beq_self_eq_true, if_true, List.foldl_cons]
    · have h1 : addToolBlock g e k = g k := by
        unfold addToolBlock
        rw [if_neg (fun h => hk h.symm)]
      have hp : (eventKey e == k) = false := beq_eq_false_iff_ne.2 hk
      rw [h1]
      simp only [List.filter_cons, hp, Bool.false_eq_true, if_false]

theorem foldl_groupStep_eq (l : List ToolEvent) (c : Option GroupStats)
    (hne : l ≠ []) :
    l.foldl (fun c e => some (bumpGroup (c.getD defaultGroupStats) e)) c =
      some (l.foldl bumpGroup (c.getD defaultGroupStats)) := by
  induction l generalizing c with
  | nil => exact absurd rfl hne
  | cons e rest ih =>
    rw [List.foldl_cons, List.foldl_cons]
    by_cases h : rest = []
    · subst h
      simp
    · rw [ih _ h]
      simp

theorem foldl_bump_count (l : List ToolEvent) (g : GroupStats) :
    (l.foldl bumpGroup g).count = g.count + l.length := by
  induction l generalizing g with
  | nil => simp
  | cons e rest ih =>
    rw [List.foldl_cons, ih]
    simp only [bumpGroup, List.length_cons]
    omega

theorem foldl_bump_parse_success (l : List ToolEvent) (g : GroupStats) :
    (l.foldl bumpGroup g).parse_success =
      g.parse_success + l.countP (fun e => e.parsed_payload.isSome) := by
  induction l generalizing g with
  | nil => simp
  | cons e rest ih =>
    rw [List.foldl_cons, ih]
    simp only [bumpGroup, List.countP_cons]
    by_cases h : e.parsed_payload.isSome
    · simp only [h, if_true, if_pos]
      omega
    · have h' : e.parsed_payload.isSome = false := by
        simpa using h
      simp only [h', Bool.false_eq_true, if_false]
      omega

theorem foldl_bump_variants_mem (l : List ToolEvent) (g : GroupStats)
    (n : String) :
    n ∈ (l.foldl bumpGroup g).tool_name_variants ↔
      n ∈ g.tool_name_variants ∨
        ∃ e ∈ l, e.tool_name = some n ∧ n ≠ "" := by
  induction l generalizing g with
  | nil => simp
  | cons e rest ih =>
    rw [List.foldl_cons, ih]
    have hstep : n ∈ (bumpGroup g e).tool_name_variants ↔
        n ∈ g.tool_name_variants ∨ (e.tool_name = some n ∧ n ≠ "") := by
      cases htn : e.tool_name with
      | none => simp [bumpGroup, htn]
      | some m =>
        by_cases hm : m = ""
        · subst hm
          simp only [bumpGroup, htn, ne_eq, not_true_eq_false, if_false]
          constructor
          · exact Or.inl
          · rintro (hg | ⟨hsome, hne⟩)
            · exact hg
            · exact absurd (Option.some_inj.1 hsome).symm hne
        · simp only [bumpGroup, htn, ne_eq, hm, not_false_eq_true, if_true,
            Finset.mem_insert]
          constructor
          · rintro (rfl | hg)
            · exact Or.inr ⟨rfl, hm⟩
            · exact Or.inl hg
          · rintro (hg | ⟨hsome, -⟩)
            · exact Or.inr hg
            · exact Or.inl (Option.some_inj.1 hsome).symm
    rw [hstep]
    constructor
    · rintro (⟨hg | he⟩ | ⟨e', he', hn⟩)
      · exact Or.inl hg
      · exact Or.inr ⟨e, List.mem_cons_self _ _, he⟩
      · exact Or.inr ⟨e', List.mem_cons_of_mem _ he', hn⟩
    · rintro (hg | ⟨e', he', hn⟩)
      · exact Or.inl (Or.inl hg)
      · rcases List.mem_cons.1 he' with rfl | he'
        · exact Or.inl (Or.inr hn)
        · exact Or.inr ⟨e', he', hn⟩

theorem foldl_bump_fields_mem (l : List ToolEvent) (g : GroupStats)
    (x : String) :
    x ∈ (l.foldl bumpGroup g).fields_seen ↔
      x ∈ g.fields_seen ∨ ∃ e ∈ l, x ∈ eventFieldsFinset e.fields := by
  induction l generalizing g with
  | nil => simp
  | cons e rest ih =>
    rw [List.foldl_cons, ih]
    have hstep : x ∈ (bumpGroup g e).fields_seen ↔
        x ∈ g.fields_seen ∨ x ∈ eventFieldsFinset e.fields := by
      simp [bumpGroup]
    rw [hstep]
    constructor
    · rintro (⟨hg | he⟩ | ⟨e', he', hx⟩)
      · exact Or.inl hg
      · exact Or.inr ⟨e, List.mem_cons_self _ _, he⟩
      · exact Or.inr ⟨e', List.mem_cons_of_mem _ he', hx⟩
    · rintro (hg | ⟨e', he', hx⟩)
      · exact Or.inl (Or.inl hg)
      · rcases List.mem_cons.1 he' with rfl | he'
        · exact Or.inl (Or.inr hx)
        · exact Or.inr ⟨e', he', hx⟩

theorem foldl_bump_perm {m m' : List ToolEvent} (h : m.Perm m')
    (g : GroupStats) : m.foldl bumpGroup g = m'.foldl bumpGroup g := by
  refine groupStats_eq_of_fields ?_ ?_ ?_ ?_
  · rw [foldl_bump_count, foldl_bump_count, h.length_eq]
  · rw [foldl_bump_parse_success, foldl_bump_parse_success, h.countP_eq]
  · ext n
    rw [foldl_bump_variants_mem, foldl_bump_variants_mem]
    constructor
    · rintro (hg | ⟨e, he, hn⟩)
      · exact Or.inl hg
      · exact Or.inr ⟨e, h.subset he, hn⟩
    · rintro (hg | ⟨e, he, hn⟩)
      · exact Or.inl hg
      · exact Or.inr ⟨e, h.symm.subset he, hn⟩
  · ext x
    rw [foldl_bump_fields_mem, foldl_bump_fields_mem]
    constructor
    · rintro (hg | ⟨e, he, hx⟩)
      · exact Or.inl hg
      · exact Or.inr ⟨e, h.subset he, hx⟩
    · rintro (hg | ⟨e, he, hx⟩)
      · exact Or.inl hg
      · exact Or.inr ⟨e, h.symm.subset he, hx⟩

theorem clusterEvents_perm {es es' : List ToolEvent} (h : es.Perm es') :
    clusterEvents es = clusterEvents es' := by
  funext k
  show (es.foldl addToolBlock (fun _ => none)) k =
    (es'.foldl addToolBlock (fun _ => none)) k
  rw [foldl_addToolBlock, foldl_addToolBlock]
  have hp := h.filter (fun e => eventKey e == k)
  rcases hfe : es.filter (fun e => eventKey e == k) with _ | ⟨e, rest⟩
  · rw [hfe] at hp
    rw [List.Perm.eq_nil hp.symm]
  · rw [hfe] at hp
    have hne' : es'.filter (fun e => eventKey e == k) ≠ [] := by
      intro h0
      rw [h0] at hp
      exact List.cons_ne_nil _ _ hp.eq_nil
    rw [foldl_groupStep_eq _ _ (List.cons_ne_nil e rest),
      foldl_groupStep_eq _ _ hne']
    exact congrArg some (foldl_bump_perm hp _)

/-- C6: clustering is order-independent.  For every record type and every
pure per-record tool-block extraction (as `codex_tool_blocks`,
`claude_tool_blocks`, ... are), clustering the records in reversed file order
produces the same group map as the original order: the same set of
`ToolEventGroup` keys (agent family, normalized tool name, shape signature,
direction), each with the same count — and the same parse successes,
tool-name variants and fields seen. -/

theorem clusterRecords_order_independent (R : Type)
    (blocksOf : R → List ToolEvent) (rs : List R) :
    clusterEvents (rs.reverse.flatMap blocksOf) =
      clusterEvents (rs.flatMap blocksOf) :=
  clusterEvents_perm ((List.reverse_perm rs).flatMap_right blocksOf)

end ScanToolFormats
